import Mathlib

/-!
Shallow embedding of `src/raqote/src/backend.rs` (the raqote backend of
`maroider/iced`): the glyph cache, the primitive-tree compositing walk of
`Backend::draw_primitive`, the font-resolution logic shared by drawing and
`Backend::measure`, and the measurement fold.

Rust `f32` values are modelled as exact rationals (ℚ); coverage bytes and
8-bit channels as ℕ.  External collaborators (fontdue layout / rasterize /
parse, the raqote draw target) are modelled as an environment of functions
plus an explicit draw-target state holding the transform, the clip stack and
the trace of emitted operations.  Fonts are opaque handles (ℕ).
-/

/-- An `iced_native::Rectangle` with `f32` fields. -/
structure Rect where
  x : ℚ
  y : ℚ
  width : ℚ
  height : ℚ
deriving DecidableEq

/-- An `iced_native::Color` (float channels, nominally in `[0,1]`). -/
structure Color where
  r : ℚ
  g : ℚ
  b : ℚ
  a : ℚ
deriving DecidableEq

/-- `iced_graphics::Background` (only a solid colour variant exists). -/
inductive Background where
  | color (c : Color)
deriving DecidableEq

/-- `iced_native::Font`: the built-in default or a named external font. -/
inductive Font where
  | default
  | external (name : String) (bytes : List Nat)
deriving DecidableEq

/-- `iced_native::HorizontalAlignment`. -/
inductive HorizontalAlignment where
  | left
  | center
  | right
deriving DecidableEq

/-- `iced_native::VerticalAlignment`. -/
inductive VerticalAlignment where
  | top
  | center
  | bottom
deriving DecidableEq

/-- `fontdue::layout::HorizontalAlign`. -/
inductive FdHorizontalAlign where
  | left
  | center
  | right
deriving DecidableEq

/-- `fontdue::layout::VerticalAlign`. -/
inductive FdVerticalAlign where
  | top
  | middle
  | bottom
deriving DecidableEq

/-- `fontdue::layout::WrapStyle`. -/
inductive WrapStyle where
  | word
  | letter
deriving DecidableEq

/-- `fontdue::layout::LayoutSettings`, as filled in by the backend. -/
structure LayoutSettings where
  x : ℚ
  y : ℚ
  max_width : Option ℚ
  max_height : Option ℚ
  horizontal_align : FdHorizontalAlign
  vertical_align : FdVerticalAlign
  wrap_style : WrapStyle
  wrap_hard_breaks : Bool
  include_whitespace : Bool
  /-- `coordinate_system = PositiveYDirection::Down` is modelled as `true`. -/
  y_down : Bool
deriving DecidableEq

/-- `fontdue::layout::GlyphRasterConfig`: the glyph-raster cache key. -/
structure GlyphRasterConfig where
  c : Char
  px : ℚ
  font_hash : Nat
deriving DecidableEq

/-- `fontdue::Metrics` (the fields the backend reads). -/
structure Metrics where
  width : Nat
  height : Nat
  advance_width : ℚ
deriving DecidableEq

/-- A rasterized glyph: metrics plus the 8-bit coverage mask. -/
abbrev Glyph := Metrics × List Nat

/-- `fontdue::layout::GlyphPosition`. -/
structure GlyphPosition where
  key : GlyphRasterConfig
  x : ℚ
  y : ℚ
  width : Nat
  height : Nat
deriving DecidableEq

/-- A raqote path-building operation (`PathBuilder` calls). -/
inductive PathOp where
  | move_to (x y : ℚ)
  | line_to (x y : ℚ)
  | quad_to (cx cy x y : ℚ)
  | close
deriving DecidableEq

/-- `raqote::SolidSource::from_unpremultiplied_argb` operand: four `u8`s. -/
structure Argb8 where
  a : Nat
  r : Nat
  g : Nat
  b : Nat
deriving DecidableEq

/-- Rust `(q * 255.0) as u8` for a channel `q` in `[0,1]`: floor of `q*255`. -/
def channel8 (q : ℚ) : Nat := (Int.floor (q * 255)).toNat

/-- The solid source built from an `iced` colour in the `Quad` branch. -/
def solidOfColor (c : Color) : Argb8 :=
  ⟨channel8 c.a, channel8 c.r, channel8 c.g, channel8 c.b⟩

/-- Operations the compositor issues against the raqote draw target.
`layout_call` records an invocation of the text-layout collaborator
(`Layout::layout_horizontal`), with the pixel size and settings it was
given; `fill` a `DrawTarget::fill`; `blit` a `DrawTarget::draw_image_at`. -/
inductive RenderOp where
  | layout_call (px : ℚ) (settings : LayoutSettings)
  | fill (path : List PathOp) (source : Argb8)
  | blit (x y : ℚ) (width height : Nat) (data : List Nat)
deriving DecidableEq

/-- A raqote transform.  The backend only ever installs pure translations
(`Transform::create_translation`) or restores a saved value, so the
reachable transforms are translations; we model the translation vector. -/
abbrev Transform := ℚ × ℚ

/-- Rust `as i32` on a nonnegative-ish `f32`: truncation toward zero. -/
def truncToInt (q : ℚ) : Int :=
  if 0 ≤ q then Int.floor q else Int.ceil q

/-- `raqote::IntRect` as pushed by `push_clip_rect`. -/
structure IntRect where
  x0 : Int
  y0 : Int
  x1 : Int
  y1 : Int
deriving DecidableEq

/-- The pixel computed for one coverage byte in the `Text` branch:
`(((color.a * cov).floor() as u32) << 24) | (((color.r * cov).floor() as u32) << 16)
 | (((color.g * cov).floor() as u32) << 8) | ((color.b * cov).floor() as u32)`. -/
def coveragePixel (color : Color) (cov : Nat) : Nat :=
  ((Int.floor (color.a * cov)).toNat <<< 24) |||
    ((Int.floor (color.r * cov)).toNat <<< 16) |||
    ((Int.floor (color.g * cov)).toNat <<< 8) |||
    (Int.floor (color.b * cov)).toNat

/-- The `image_data` buffer built for one glyph: one pixel per coverage byte. -/
def glyphImageData (color : Color) (coverage : List Nat) : List Nat :=
  coverage.map (coveragePixel color)

/-- The closure `rect_path` in the `Quad` branch of `draw_primitive`:
a plain rectangle when `border_radius == 0.0`, otherwise a rectangle whose
corners are quadratic curves of radius `border_radius`. -/
def rect_path (border_radius x y xmax ymax : ℚ) : List PathOp :=
  if border_radius = 0 then
    [PathOp.move_to x y,
     PathOp.line_to xmax y,
     PathOp.line_to xmax ymax,
     PathOp.line_to x ymax,
     PathOp.close]
  else
    [PathOp.move_to x (y + border_radius),
     PathOp.quad_to x y (x + border_radius) y,
     PathOp.line_to (xmax - border_radius) y,
     PathOp.quad_to xmax y xmax (y + border_radius),
     PathOp.line_to xmax (ymax - border_radius),
     PathOp.quad_to xmax ymax (xmax - border_radius) ymax,
     PathOp.line_to (x + border_radius) ymax,
     PathOp.quad_to x ymax x (ymax - border_radius),
     PathOp.close]

/-- Association-list lookup for the named-font table. -/
def lookupName (fonts : List (String × Nat)) (name : String) : Option Nat :=
  match fonts with
  | [] => none
  | (n, f) :: rest => if n = name then some f else lookupName rest name

/-- Association-list lookup for the glyph cache. -/
def lookupKey (cache : List (GlyphRasterConfig × Glyph)) (key : GlyphRasterConfig) :
    Option Glyph :=
  match cache with
  | [] => none
  | (k, g) :: rest => if k = key then some g else lookupKey rest key

/-- The external collaborators: fontdue's layout, rasterization and font
parsing, plus the built-in fallback font handle.  Fonts are opaque ℕ
handles; `parseFont` returns `none` on malformed bytes
(`fontdue::Font::from_bytes` returning `Err`). -/
structure Env where
  layout : Nat → String → ℚ → LayoutSettings → List GlyphPosition
  rasterize : Nat → Char → ℚ → Glyph
  parseFont : List Nat → Option Nat
  fallback_font : Nat

/-- Result of resolving an `iced_native::Font` against the named-font table:
the font handle used, the updated table, the parse invocations performed
(name paired with whether parsing succeeded), and the warnings logged. -/
structure ResolveOut where
  font : Nat
  fonts : List (String × Nat)
  parsed : List (String × Bool)
  warns : Nat
deriving DecidableEq

/-- Font resolution as performed identically in the `Text` branch of
`draw_primitive` (lines 157–179) and in `measure` (lines 397–416):
the default font maps to the fallback; a named external font is looked up
in the memo table, and on a miss its bytes are parsed — a successful parse
is inserted under the name, a failed parse logs a warning and substitutes
the fallback font without touching the table. -/
def resolveFont (env : Env) (fonts : List (String × Nat)) (font : Font) : ResolveOut :=
  match font with
  | Font.default => ⟨env.fallback_font, fonts, [], 0⟩
  | Font.external name bytes =>
    match lookupName fonts name with
    | some f => ⟨f, fonts, [], 0⟩
    | none =>
      match env.parseFont bytes with
      | some ok => ⟨ok, (name, ok) :: fonts, [(name, true)], 0⟩
      | none => ⟨env.fallback_font, fonts, [(name, false)], 1⟩

/-- `self.glyph_cache.entry(key).or_insert_with(|| font.rasterize(key.c, size))`
(lines 193–197), instrumented with the number of rasterize invocations:
a hit returns the stored pair untouched; a miss rasterizes once, stores the
result at the front of the cache and returns it. -/
def get_or_rasterize (rasterize : Char → ℚ → Glyph)
    (cache : List (GlyphRasterConfig × Glyph)) (key : GlyphRasterConfig)
    (size : ℚ) : Glyph × List (GlyphRasterConfig × Glyph) × Nat :=
  match lookupKey cache key with
  | some g => (g, cache, 0)
  | none =>
    let g := rasterize key.c size
    (g, (key, g) :: cache, 1)

/-- The `iced_graphics::Primitive` tree. -/
inductive Primitive where
  | none
  | group (primitives : List Primitive)
  | text (content : String) (bounds : Rect) (color : Color) (size : ℚ)
      (font : Font) (horizontal_alignment : HorizontalAlignment)
      (vertical_alignment : VerticalAlignment)
  | quad (bounds : Rect) (background : Background) (border_radius : Nat)
      (border_width : Nat) (border_color : Color)
  | image
  | svg
  | clip (bounds : Rect) (offset : Nat × Nat) (content : Primitive)
  | translate (translation : ℚ × ℚ) (content : Primitive)
  | mesh2d
  | cached (cache : Primitive)

/-- The mutable state a `draw` call threads: the raqote draw target
(current transform, stack of pushed clip rectangles, and the trace of
emitted operations, each recorded together with the transform under which
it was issued) plus the backend's own fields (glyph cache, named-font
table) and ghost instrumentation counters for the external collaborators
(rasterize invocations, parse invocations, warnings logged). -/
structure DrawState where
  transform : Transform
  clip_stack : List IntRect
  ops : List (Transform × RenderOp)
  glyph_cache : List (GlyphRasterConfig × Glyph)
  fonts : List (String × Nat)
  parsed : List (String × Bool)
  rasterize_calls : Nat
  warns : Nat
deriving DecidableEq

/-- The `LayoutSettings` built in the `Text` branch (lines 124–156):
origin and maximum extent are the bounds scaled by the scale factor,
alignment is translated, wrapping is word-style with hard breaks,
whitespace is excluded and Y grows downward. -/
def textLayoutSettings (bounds : Rect) (scale_factor : ℚ)
    (h : HorizontalAlignment) (v : VerticalAlignment) : LayoutSettings :=
  { x := bounds.x * scale_factor
    y := bounds.y * scale_factor
    max_width := some ((bounds.x + bounds.width) * scale_factor)
    max_height := some ((bounds.y + bounds.height) * scale_factor)
    horizontal_align :=
      match h with
      | HorizontalAlignment.left => FdHorizontalAlign.left
      | HorizontalAlignment.center => FdHorizontalAlign.center
      | HorizontalAlignment.right => FdHorizontalAlign.right
    vertical_align :=
      match v with
      | VerticalAlignment.top => FdVerticalAlign.top
      | VerticalAlignment.center => FdVerticalAlign.middle
      | VerticalAlignment.bottom => FdVerticalAlign.bottom
    wrap_style := WrapStyle.word
    wrap_hard_breaks := true
    include_whitespace := false
    y_down := true }

/-- The body of the glyph loop (lines 193–223): fetch or rasterize the
glyph through the cache, build the tinted pixel buffer, and blit it at
`(x, y - height)` with the cached metrics' dimensions. -/
def drawGlyph (env : Env) (fontHandle : Nat) (color : Color) (size : ℚ)
    (st : DrawState) (pos : GlyphPosition) : DrawState :=
  let (g, cache, calls) :=
    get_or_rasterize (env.rasterize fontHandle) st.glyph_cache pos.key size
  { st with
      glyph_cache := cache
      rasterize_calls := st.rasterize_calls + calls
      ops := st.ops ++
        [(st.transform,
          RenderOp.blit pos.x (pos.y - pos.height) g.1.width g.1.height
            (glyphImageData color g.2))] }

mutual

/-- `Backend::draw_primitive` (lines 90–363), with `drawPrimitiveList`
standing for the `for` loop of the `Group` branch. -/
def drawPrimitive (env : Env) (viewport_size : Nat × Nat) (scale_factor : ℚ)
    (p : Primitive) (st : DrawState) : DrawState :=
  match p with
  | Primitive.none => st
  | Primitive.group primitives =>
    drawPrimitiveList env viewport_size scale_factor primitives st
  | Primitive.text content bounds color size font h v =>
    let layout_settings := textLayoutSettings bounds scale_factor h v
    let r := resolveFont env st.fonts font
    let positions := env.layout r.font content size layout_settings
    let st :=
      { st with
          fonts := r.fonts
          parsed := st.parsed ++ r.parsed
          warns := st.warns + r.warns
          ops := st.ops ++
            [(st.transform, RenderOp.layout_call size layout_settings)] }
    positions.foldl (drawGlyph env r.font color size) st
  | Primitive.quad bounds background border_radius border_width border_color =>
    let border_radius : ℚ := border_radius
    let border_width : ℚ := border_width
    let outer := rect_path border_radius bounds.x bounds.y
      (bounds.x + bounds.width) (bounds.y + bounds.height)
    let inner := rect_path border_radius (bounds.x + border_width)
      (bounds.y + border_width) (bounds.x + bounds.width - border_width)
      (bounds.y + bounds.height - border_width)
    let bg := match background with
      | Background.color c => c
    { st with
        ops := st.ops ++
          [(st.transform, RenderOp.fill outer (solidOfColor border_color)),
           (st.transform, RenderOp.fill inner (solidOfColor bg))] }
  | Primitive.image => st
  | Primitive.svg => st
  | Primitive.clip bounds offset content =>
    let st1 := { st with
      clip_stack :=
        ⟨truncToInt bounds.x, truncToInt bounds.y,
         truncToInt (bounds.x + bounds.width),
         truncToInt (bounds.y + bounds.height)⟩ :: st.clip_stack }
    let prev_transform := st1.transform
    let st2 := { st1 with
      transform := (bounds.x + (offset.1 : ℚ), bounds.y + (offset.2 : ℚ)) }
    let st3 := drawPrimitive env viewport_size scale_factor content st2
    let st4 := { st3 with transform := prev_transform }
    { st4 with clip_stack := st4.clip_stack.tail }
  | Primitive.translate translation content =>
    let prev_transform := st.transform
    let st1 := { st with transform := (translation.1, translation.2) }
    let st2 := drawPrimitive env viewport_size scale_factor content st1
    { st2 with transform := prev_transform }
  | Primitive.mesh2d => st
  | Primitive.cached cache =>
    drawPrimitive env viewport_size scale_factor cache st

/-- The `Group` branch's loop: draw each child in order. -/
def drawPrimitiveList (env : Env) (viewport_size : Nat × Nat)
    (scale_factor : ℚ) (ps : List Primitive) (st : DrawState) : DrawState :=
  match ps with
  | [] => st
  | p :: rest =>
    drawPrimitiveList env viewport_size scale_factor rest
      (drawPrimitive env viewport_size scale_factor p st)

end

/-- The `LayoutSettings` built in `measure` (lines 418–429): origin zero,
maximum extent the given bounds, left/top alignment, word wrapping with
hard breaks, whitespace excluded, Y growing downward. -/
def measureLayoutSettings (bounds : ℚ × ℚ) : LayoutSettings :=
  { x := 0
    y := 0
    max_width := some bounds.1
    max_height := some bounds.2
    horizontal_align := FdHorizontalAlign.left
    vertical_align := FdVerticalAlign.top
    wrap_style := WrapStyle.word
    wrap_hard_breaks := true
    include_whitespace := false
    y_down := true }

/-- The glyph placements produced inside `measure`: resolve the font and
invoke the layout collaborator with the measurement settings. -/
def measurePositions (env : Env) (fonts : List (String × Nat))
    (contents : String) (size : ℚ) (font : Font) (bounds : ℚ × ℚ) :
    List GlyphPosition :=
  env.layout (resolveFont env fonts font).font contents size
    (measureLayoutSettings bounds)

/-- `Backend::measure` (lines 390–451): lay the text out, then fold the
placements into a width (maximum of `x + width`) and a height (maximum of
`y`), both starting from `0.0`. -/
def Backend.measure (env : Env) (fonts : List (String × Nat)) (contents : String)
    (size : ℚ) (font : Font) (bounds : ℚ × ℚ) : ℚ × ℚ :=
  let positions := measurePositions env fonts contents size font bounds
  let width := positions.foldl (fun acc pos => max acc (pos.x + (pos.width : ℚ))) 0
  let height := positions.foldl (fun acc pos => max acc pos.y) 0
  (width, height)

/-- The colour of a (solid) background. -/
def backgroundColor : Background → Color
  | Background.color c => c

/-- Processing a sequence of font references through the named-font table,
accumulating the table and all parse invocations.  Models the successive
font resolutions performed across Text rendering and measurement calls. -/
def resolveAll (env : Env) (fonts : List (String × Nat)) :
    List Font → List (String × Nat) × List (String × Bool)
  | [] => (fonts, [])
  | f :: rest =>
    let r := resolveFont env fonts f
    let tl := resolveAll env r.fonts rest
    (tl.1, r.parsed ++ tl.2)

/-- Number of parse invocations attributed to `name` in an event trace. -/
def parseCountOf (events : List (String × Bool)) (name : String) : Nat :=
  (events.filter (fun e => e.1 = name)).length

/-- A sample glyph-raster key. -/
def keyW : GlyphRasterConfig := ⟨'a', 16, 0⟩

/-- A sample rasterized glyph. -/
def glyphW : Glyph := (⟨2, 3, 10⟩, [0, 128, 255])

/-- A sample placement carrying `keyW`. -/
def posW : GlyphPosition := ⟨keyW, 4, 9, 2, 3⟩

/-- A placement of nonzero height used to probe the measurement fold. -/
def posB : GlyphPosition := ⟨keyW, 0, 0, 1, 5⟩

/-- A concrete environment: empty layouts, a fixed rasterization result,
and a font parser that fails exactly on the byte string `[0]`. -/
def envA : Env :=
  { layout := fun _ _ _ _ => []
    rasterize := fun _ _ _ => glyphW
    parseFont := fun bytes => if bytes = [0] then none else some 7
    fallback_font := 1 }

/-- Like `envA` but the layout collaborator always places `posB`. -/
def envB : Env := { envA with layout := fun _ _ _ _ => [posB] }

/-- An empty initial draw state. -/
def stW : DrawState := ⟨(0, 0), [], [], [], [], [], 0, 0⟩

/-- A draw state whose glyph cache already holds `keyW`. -/
def stC : DrawState := { stW with glyph_cache := [(keyW, glyphW)] }

/-- A draw state with a non-identity transform installed. -/
def st57 : DrawState := { stW with transform := (5, 7) }

/-- A sample opaque colour. -/
def colorW : Color := ⟨1, 0, 0, 1⟩

/-- A sample quad primitive (emits fills under any environment). -/
def quadW : Primitive :=
  Primitive.quad ⟨0, 0, 1, 1⟩ (Background.color ⟨0, 1, 0, 1⟩) 0 0 ⟨0, 0, 1, 1⟩

lemma drawGlyph_transform (env : Env) (f : Nat) (color : Color) (size : ℚ)
    (st : DrawState) (pos : GlyphPosition) :
    (drawGlyph env f color size st pos).transform = st.transform := by
  simp [drawGlyph]

lemma drawGlyph_clip (env : Env) (f : Nat) (color : Color) (size : ℚ)
    (st : DrawState) (pos : GlyphPosition) :
    (drawGlyph env f color size st pos).clip_stack = st.clip_stack := by
  simp [drawGlyph]

lemma foldl_drawGlyph_transform (env : Env) (f : Nat) (color : Color) (size : ℚ)
    (l : List GlyphPosition) (st : DrawState) :
    (l.foldl (drawGlyph env f color size) st).transform = st.transform := by
  induction l generalizing st with
  | nil => rfl
  | cons p rest ih => simp [List.foldl_cons, ih, drawGlyph_transform]

lemma foldl_drawGlyph_clip (env : Env) (f : Nat) (color : Color) (size : ℚ)
    (l : List GlyphPosition) (st : DrawState) :
    (l.foldl (drawGlyph env f color size) st).clip_stack = st.clip_stack := by
  induction l generalizing st with
  | nil => rfl
  | cons p rest ih => simp [List.foldl_cons, ih, drawGlyph_clip]

/-- Every primitive's rendering (and every list's) leaves the draw target's
transform and clip stack exactly as it found them. -/
lemma drawPrimitive_preserves (env : Env) (vs : Nat × Nat) (s : ℚ) :
    ∀ (p : Primitive) (st : DrawState),
      (drawPrimitive env vs s p st).transform = st.transform ∧
        (drawPrimitive env vs s p st).clip_stack = st.clip_stack := by
  refine drawPrimitive.induct env vs s
    (fun p st =>
      (drawPrimitive env vs s p st).transform = st.transform ∧
        (drawPrimitive env vs s p st).clip_stack = st.clip_stack)
    (fun ps st =>
      (drawPrimitiveList env vs s ps st).transform = st.transform ∧
        (drawPrimitiveList env vs s ps st).clip_stack = st.clip_stack)
    ?_ ?_ ?_ ?_ ?_ ?_ ?_ ?_ ?_ ?_ ?_ ?_
  · intro st
    exact ⟨rfl, rfl⟩
  · intro st primitives ih
    simpa [drawPrimitive] using ih
  · intro st content bounds color size font h v
    simp [drawPrimitive, foldl_drawGlyph_transform, foldl_drawGlyph_clip]
  · intro st bounds background br bw bc
    simp [drawPrimitive]
  · intro st
    exact ⟨rfl, rfl⟩
  · intro st
    exact ⟨rfl, rfl⟩
  · intro st bounds offset content st1 st2 ih
    constructor
    · simp [drawPrimitive]
    · simp only [drawPrimitive]
      have h2 := ih.2
      simp only [st2, st1] at h2 ⊢
      simp [h2]
  · intro st translation content st1 ih
    constructor
    · simp [drawPrimitive]
    · simp only [drawPrimitive]
      have h2 := ih.2
      simp only [st1] at h2 ⊢
      simp [h2]
  · intro st
    exact ⟨rfl, rfl⟩
  · intro st cache ih
    simpa [drawPrimitive] using ih
  · intro st
    exact ⟨rfl, rfl⟩
  · intro st p rest ih ihrest
    simp only [drawPrimitiveList]
    exact ⟨ihrest.1.trans ih.1, ihrest.2.trans ih.2⟩

/-- C2: after `draw_primitive` finishes a `Clip(bounds, offset, child)` node,
the draw target's transform and clip-rectangle stack are exactly their values
from immediately before the node was entered, whatever the child subtree
rendered; and in a `Group` the next sibling starts from precisely that
post-Clip state, so it observes the pre-Clip transform and clip stack. -/
theorem C2_clip_restores_state (env : Env) (vs : Nat × Nat) (s : ℚ)
    (bounds : Rect) (offset : Nat × Nat) (child : Primitive) (st : DrawState)
    (rest : List Primitive) :
    (drawPrimitive env vs s (Primitive.clip bounds offset child) st).transform
        = st.transform ∧
      (drawPrimitive env vs s (Primitive.clip bounds offset child) st).clip_stack
        = st.clip_stack ∧
      drawPrimitive env vs s
          (Primitive.group (Primitive.clip bounds offset child :: rest)) st
        = drawPrimitiveList env vs s rest
            (drawPrimitive env vs s (Primitive.clip bounds offset child) st) := by
  exact ⟨(drawPrimitive_preserves env vs s _ st).1,
    (drawPrimitive_preserves env vs s _ st).2, rfl⟩

/-- C3 counterexample: drawing `Translate((3,0), quad)` from a state whose
transform is `(5,7)` issues both fills under transform `(3,0)`, not under
the composition `(5+3, 7+0) = (8,7)` the claim requires. -/
theorem C3_counterexample :
    ((drawPrimitive envA (0, 0) 1 (Primitive.translate (3, 0) quadW)
        st57).ops.map Prod.fst = [(3, 0), (3, 0)]) ∧
      ((3 : ℚ), (0 : ℚ)) ≠ ((5 : ℚ) + 3, (7 : ℚ) + 0) := by
  constructor
  · rfl
  · intro h
    have := congrArg Prod.fst h
    norm_num at this

/-- C3 (amended): while the child of `Translate(offset, child)` is rendered,
the transform in effect is the translation by `offset` alone — the prior
transform is overwritten by `set_transform`, not composed with — and the
prior transform is restored once the child finishes. -/
theorem C3_translate_sets_transform (env : Env) (vs : Nat × Nat) (s : ℚ)
    (t : ℚ × ℚ) (child : Primitive) (st : DrawState) :
    drawPrimitive env vs s (Primitive.translate t child) st
      = { drawPrimitive env vs s child { st with transform := (t.1, t.2) } with
          transform := st.transform } := by
  rfl

lemma foldl_drawGlyph_ops (env : Env) (f : Nat) (color : Color) (size : ℚ)
    (l : List GlyphPosition) (st : DrawState) :
    ∃ extra, (l.foldl (drawGlyph env f color size) st).ops = st.ops ++ extra := by
  induction l generalizing st with
  | nil => exact ⟨[], by simp⟩
  | cons p rest ih =>
    obtain ⟨extra, hextra⟩ := ih (drawGlyph env f color size st p)
    refine ⟨(st.transform,
      RenderOp.blit p.x (p.y - p.height)
        (get_or_rasterize (env.rasterize f) st.glyph_cache p.key size).1.1.width
        (get_or_rasterize (env.rasterize f) st.glyph_cache p.key size).1.1.height
        (glyphImageData color
          (get_or_rasterize (env.rasterize f) st.glyph_cache p.key size).1.2))
        :: extra, ?_⟩
    rw [List.foldl_cons, hextra]
    simp [drawGlyph]

/-- C4 counterexample: with scale factor `2` and requested size `16`, the
text-layout collaborator is invoked with pixel size `16`, not `16 * 2`:
the code passes `px: *size` unscaled. -/
theorem C4_counterexample :
    ((drawPrimitive envA (0, 0) 2
        (Primitive.text "A" ⟨0, 0, 10, 10⟩ colorW 16 Font.default
          HorizontalAlignment.left VerticalAlignment.top) stW).ops
      = [((0, 0), RenderOp.layout_call 16
            (textLayoutSettings ⟨0, 0, 10, 10⟩ 2 HorizontalAlignment.left
              VerticalAlignment.top))]) ∧
      (16 : ℚ) ≠ 16 * 2 := by
  exact ⟨rfl, by norm_num⟩

/-- C4 (amended): for every `Text` primitive and scale factor `s`, the
text-layout collaborator is invoked with pixel size equal to the requested
size (NOT multiplied by `s`), and with layout bounds whose origin and
maximum extent are the primitive's bounds multiplied by `s`, word wrap
enabled, hard breaks honored, whitespace excluded and top-down Y. -/
theorem C4_layout_invocation (env : Env) (vs : Nat × Nat) (s : ℚ)
    (content : String) (bounds : Rect) (color : Color) (size : ℚ) (font : Font)
    (h : HorizontalAlignment) (v : VerticalAlignment) (st : DrawState) :
    ∃ extra,
      (drawPrimitive env vs s
          (Primitive.text content bounds color size font h v) st).ops
        = st.ops ++ ((st.transform,
            RenderOp.layout_call size (textLayoutSettings bounds s h v)) :: extra) ∧
      (textLayoutSettings bounds s h v).x = bounds.x * s ∧
      (textLayoutSettings bounds s h v).y = bounds.y * s ∧
      (textLayoutSettings bounds s h v).max_width
        = some ((bounds.x + bounds.width) * s) ∧
      (textLayoutSettings bounds s h v).max_height
        = some ((bounds.y + bounds.height) * s) ∧
      (textLayoutSettings bounds s h v).wrap_style = WrapStyle.word ∧
      (textLayoutSettings bounds s h v).wrap_hard_breaks = true ∧
      (textLayoutSettings bounds s h v).include_whitespace = false ∧
      (textLayoutSettings bounds s h v).y_down = true := by
  obtain ⟨extra, hextra⟩ := foldl_drawGlyph_ops env
    (resolveFont env st.fonts font).font color size
    (env.layout (resolveFont env st.fonts font).font content size
      (textLayoutSettings bounds s h v))
    { st with
        fonts := (resolveFont env st.fonts font).fonts
        parsed := st.parsed ++ (resolveFont env st.fonts font).parsed
        warns := st.warns + (resolveFont env st.fonts font).warns
        ops := st.ops ++
          [(st.transform,
            RenderOp.layout_call size (textLayoutSettings bounds s h v))] }
    
  refine ⟨extra, ?_, rfl, rfl, rfl, rfl, rfl, rfl, rfl, rfl⟩
  simp only [drawPrimitive]
  rw [hextra]
  simp

/-- C1: if the glyph cache holds `key`, rendering the placement returns the
stored (metrics, coverage) pair unchanged and does not invoke the font
collaborator's rasterize operation (zero rasterize calls, cache untouched);
if `key` is absent, rasterize is invoked exactly once on `(key.c, size)` and
its result is stored in the cache and returned (and blitted). -/
theorem C1_glyph_cache (env : Env) (fh : Nat) (color : Color) (size : ℚ)
    (st : DrawState) (pos : GlyphPosition) :
    (∀ g, lookupKey st.glyph_cache pos.key = some g →
        get_or_rasterize (env.rasterize fh) st.glyph_cache pos.key size
          = (g, st.glyph_cache, 0) ∧
        drawGlyph env fh color size st pos
          = { st with ops := st.ops ++
              [(st.transform, RenderOp.blit pos.x (pos.y - pos.height)
                g.1.width g.1.height (glyphImageData color g.2))] }) ∧
    (lookupKey st.glyph_cache pos.key = none →
        get_or_rasterize (env.rasterize fh) st.glyph_cache pos.key size
          = (env.rasterize fh pos.key.c size,
             (pos.key, env.rasterize fh pos.key.c size) :: st.glyph_cache, 1) ∧
        lookupKey ((pos.key, env.rasterize fh pos.key.c size) :: st.glyph_cache)
            pos.key = some (env.rasterize fh pos.key.c size) ∧
        drawGlyph env fh color size st pos
          = { st with
              glyph_cache :=
                (pos.key, env.rasterize fh pos.key.c size) :: st.glyph_cache
              rasterize_calls := st.rasterize_calls + 1
              ops := st.ops ++
                [(st.transform, RenderOp.blit pos.x (pos.y - pos.height)
                  (env.rasterize fh pos.key.c size).1.width
                  (env.rasterize fh pos.key.c size).1.height
                  (glyphImageData color (env.rasterize fh pos.key.c size).2))] }) := by
  constructor
  · intro g hg
    constructor
    · simp [get_or_rasterize, hg]
    · simp [drawGlyph, get_or_rasterize, hg]
  · intro hg
    refine ⟨by simp [get_or_rasterize, hg], by simp [lookupKey], ?_⟩
    simp [drawGlyph, get_or_rasterize, hg]

/-- C1 witness: with `keyW` already cached in `stC`, drawing the placement
`posW` returns the stored `glyphW` bit-identically and performs no
rasterize call. -/
theorem C1_glyph_cache_witness :
    drawGlyph envA 0 colorW 16 stC posW
      = { stC with ops := stC.ops ++
          [(stC.transform, RenderOp.blit posW.x (posW.y - posW.height)
            glyphW.1.width glyphW.1.height (glyphImageData colorW glyphW.2))] } :=
  ((C1_glyph_cache envA 0 colorW 16 stC posW).1 glyphW (by
    simp [stC, stW, lookupKey, posW])).2

lemma floor_ratio_toNat (R cov : ℕ) :
    (Int.floor ((R : ℚ) / 255 * cov)).toNat = R * cov / 255 := by
  have h : ((R : ℚ) / 255 * cov) = (((R * cov : ℕ) : ℚ)) / ((255 : ℕ) : ℚ) := by
    push_cast
    ring
  rw [h, Int.floor_toNat, Nat.floor_div_nat, Nat.floor_natCast]

/-- C5: for every coverage byte `cov` the pixel placed in the glyph image
buffer is `(floor(a*cov) << 24) | (floor(r*cov) << 16) | (floor(g*cov) << 8)
| floor(b*cov)`, one pixel per coverage byte; and for an opaque colour with
8-bit channels `(R,G,B)` the emitted channel values are `R*cov/255` (floor
division) with alpha `cov`. -/
theorem C5_coverage_pixel (color : Color) (coverage : List Nat)
    (cov R G B : ℕ) :
    glyphImageData color coverage = coverage.map (coveragePixel color) ∧
    coveragePixel color cov
      = ((Int.floor (color.a * cov)).toNat <<< 24) |||
          ((Int.floor (color.r * cov)).toNat <<< 16) |||
          ((Int.floor (color.g * cov)).toNat <<< 8) |||
          (Int.floor (color.b * cov)).toNat ∧
    coveragePixel ⟨(R : ℚ) / 255, (G : ℚ) / 255, (B : ℚ) / 255, 1⟩ cov
      = (cov <<< 24) ||| ((R * cov / 255) <<< 16) |||
          ((G * cov / 255) <<< 8) ||| (B * cov / 255) := by
  refine ⟨rfl, rfl, ?_⟩
  simp [coveragePixel, floor_ratio_toNat]

/-- C6: a `Quad` fills exactly two paths — the outer one with the border
colour, at the unscaled bounds corners whatever the scale factor, and the
same shape inset by `border_width` on all four sides with the background
colour; with `border_radius = 0` the path is a plain 4-vertex rectangle,
and with `border_radius ≠ 0` each corner is a quadratic curve of that
radius. -/
theorem C6_quad_paths (env : Env) (vs : Nat × Nat) (s : ℚ) (bounds : Rect)
    (background : Background) (br bw : Nat) (bc : Color) (st : DrawState) :
    drawPrimitive env vs s (Primitive.quad bounds background br bw bc) st
      = { st with ops := st.ops ++
          [(st.transform, RenderOp.fill
              (rect_path br bounds.x bounds.y (bounds.x + bounds.width)
                (bounds.y + bounds.height))
              (solidOfColor bc)),
           (st.transform, RenderOp.fill
              (rect_path br (bounds.x + bw) (bounds.y + bw)
                (bounds.x + bounds.width - bw) (bounds.y + bounds.height - bw))
              (solidOfColor (backgroundColor background)))] } ∧
    (∀ x y xmax ymax : ℚ, rect_path 0 x y xmax ymax
      = [PathOp.move_to x y, PathOp.line_to xmax y, PathOp.line_to xmax ymax,
         PathOp.line_to x ymax, PathOp.close]) ∧
    (∀ (r x y xmax ymax : ℚ), r ≠ 0 → rect_path r x y xmax ymax
      = [PathOp.move_to x (y + r),
         PathOp.quad_to x y (x + r) y,
         PathOp.line_to (xmax - r) y,
         PathOp.quad_to xmax y xmax (y + r),
         PathOp.line_to xmax (ymax - r),
         PathOp.quad_to xmax ymax (xmax - r) ymax,
         PathOp.line_to (x + r) ymax,
         PathOp.quad_to x ymax x (ymax - r),
         PathOp.close]) := by
  refine ⟨?_, ?_, ?_⟩
  · cases background with
    | color c => simp [drawPrimitive, backgroundColor]
  · intro x y xmax ymax
    simp [rect_path]
  · intro r x y xmax ymax hr
    simp [rect_path, hr]

/-- C6 witness: the rounded path at radius `1`. -/
theorem C6_quad_paths_witness :
    rect_path 1 0 0 2 2
      = [PathOp.move_to 0 (0 + 1),
         PathOp.quad_to 0 0 (0 + 1) 0,
         PathOp.line_to (2 - 1) 0,
         PathOp.quad_to 2 0 2 (0 + 1),
         PathOp.line_to 2 (2 - 1),
         PathOp.quad_to 2 2 (2 - 1) 2,
         PathOp.line_to (0 + 1) 2,
         PathOp.quad_to 0 2 0 (2 - 1),
         PathOp.close] :=
  (C6_quad_paths envA (0, 0) 1 ⟨0, 0, 1, 1⟩ (Background.color colorW) 0 0
    colorW stW).2.2 1 0 0 2 2 (by norm_num)

lemma parseCountOf_append (a b : List (String × Bool)) (name : String) :
    parseCountOf (a ++ b) name = parseCountOf a name + parseCountOf b name := by
  simp [parseCountOf, List.filter_append]

lemma lookupName_cons_ne (n : String) (f : Nat) (fonts : List (String × Nat))
    (name : String) (h : n ≠ name) :
    lookupName ((n, f) :: fonts) name = lookupName fonts name := by
  simp [lookupName, h]

lemma resolveAll_cons (env : Env) (fonts : List (String × Nat)) (f : Font)
    (rest : List Font) :
    (resolveAll env fonts (f :: rest)).2
      = (resolveFont env fonts f).parsed ++
          (resolveAll env (resolveFont env fonts f).fonts rest).2 := rfl

lemma parseCount_zero_of_cached (env : Env) (name : String) :
    ∀ (refs : List Font) (fonts : List (String × Nat)),
      lookupName fonts name ≠ none →
      parseCountOf (resolveAll env fonts refs).2 name = 0 := by
  intro refs
  induction refs with
  | nil =>
    intro fonts _
    simp [resolveAll, parseCountOf]
  | cons f rest ih =>
    intro fonts hmem
    rw [resolveAll_cons, parseCountOf_append]
    cases f with
    | default =>
      simp only [resolveFont]
      simpa [parseCountOf] using ih fonts hmem
    | external n bytes =>
      cases hlk : lookupName fonts n with
      | some fo =>
        simp only [resolveFont, hlk]
        simpa [parseCountOf] using ih fonts hmem
      | none =>
        have hne : n ≠ name := by
          intro he
          exact hmem (he ▸ hlk)
        cases hp : env.parseFont bytes with
        | some ok =>
          simp only [resolveFont, hlk, hp]
          have hmem2 : lookupName ((n, ok) :: fonts) name ≠ none := by
            rw [lookupName_cons_ne n ok fonts name hne]
            exact hmem
          simpa [parseCountOf, hne] using ih ((n, ok) :: fonts) hmem2
        | none =>
          simp only [resolveFont, hlk, hp]
          simpa [parseCountOf, hne] using ih fonts hmem

lemma parseCount_le_one (env : Env) (name : String) :
    ∀ (refs : List Font) (fonts : List (String × Nat)),
      (∀ bytes, Font.external name bytes ∈ refs →
        (env.parseFont bytes).isSome = true) →
      parseCountOf (resolveAll env fonts refs).2 name ≤ 1 := by
  intro refs
  induction refs with
  | nil =>
    intro fonts _
    simp [resolveAll, parseCountOf]
  | cons f rest ih =>
    intro fonts hsucc
    have hsucc2 : ∀ bytes, Font.external name bytes ∈ rest →
        (env.parseFont bytes).isSome = true := by
      intro bytes hb
      exact hsucc bytes (List.mem_cons_of_mem _ hb)
    rw [resolveAll_cons, parseCountOf_append]
    cases f with
    | default =>
      simp only [resolveFont]
      simpa [parseCountOf] using ih fonts hsucc2
    | external n bytes =>
      cases hlk : lookupName fonts n with
      | some fo =>
        simp only [resolveFont, hlk]
        simpa [parseCountOf] using ih fonts hsucc2
      | none =>
        by_cases hn : n = name
        · subst hn
          have hs := hsucc bytes (List.mem_cons_self _ _)
          obtain ⟨ok, hok⟩ := Option.isSome_iff_exists.mp hs
          simp only [resolveFont, hlk, hok]
          have hzero : parseCountOf (resolveAll env ((n, ok) :: fonts) rest).2 n
              = 0 := by
            refine parseCount_zero_of_cached env n rest ((n, ok) :: fonts) ?_
            simp [lookupName]
          rw [hzero]
          simp [parseCountOf]
        · cases hp : env.parseFont bytes with
          | some ok =>
            simp only [resolveFont, hlk, hp]
            simpa [parseCountOf, hn] using ih ((n, ok) :: fonts) hsucc2
          | none =>
            simp only [resolveFont, hlk, hp]
            simpa [parseCountOf, hn] using ih fonts hsucc2

/-- C7: across any sequence of font references, if every reference to
`name` carries bytes that parse successfully, the font parser is invoked
at most once for `name`; and once `name` is in the table any reference to
it reuses the memoized handle with no parse and no table change. -/
theorem C7_font_memoization (env : Env) (fonts : List (String × Nat))
    (name : String) (refs : List Font)
    (hsucc : ∀ bytes, Font.external name bytes ∈ refs →
      (env.parseFont bytes).isSome = true) :
    parseCountOf (resolveAll env fonts refs).2 name ≤ 1 ∧
      ∀ f bytes, lookupName fonts name = some f →
        resolveFont env fonts (Font.external name bytes) = ⟨f, fonts, [], 0⟩ := by
  refine ⟨parseCount_le_one env name refs fonts hsucc, ?_⟩
  intro f bytes hf
  simp [resolveFont, hf]

/-- C7 witness: referencing the same successfully-parsing named font twice
parses at most once. -/
theorem C7_font_memoization_witness :
    parseCountOf
      (resolveAll envA []
        [Font.external "f" [1], Font.external "f" [1]]).2 "f" ≤ 1 ∧
      ∀ f bytes, lookupName [] "f" = some f →
        resolveFont envA [] (Font.external "f" bytes) = ⟨f, [], [], 0⟩ := by
  refine C7_font_memoization envA [] "f"
    [Font.external "f" [1], Font.external "f" [1]] ?_
  intro bytes hb
  have hb1 : bytes = [1] := by
    simp only [List.mem_cons, List.not_mem_nil, or_false,
      Font.external.injEq, true_and, or_self] at hb
    exact hb
  subst hb1
  rfl

lemma drawGlyph_set_pw (env : Env) (fh : Nat) (color : Color) (size : ℚ)
    (st : DrawState) (pos : GlyphPosition) (P : List (String × Bool)) (W : Nat) :
    drawGlyph env fh color size { st with parsed := P, warns := W } pos
      = { drawGlyph env fh color size st pos with parsed := P, warns := W } := by
  cases hlk : lookupKey st.glyph_cache pos.key with
  | some g => simp [drawGlyph, get_or_rasterize, hlk]
  | none => simp [drawGlyph, get_or_rasterize, hlk]

lemma foldl_drawGlyph_set_pw (env : Env) (fh : Nat) (color : Color) (size : ℚ)
    (l : List GlyphPosition) :
    ∀ (st : DrawState) (P : List (String × Bool)) (W : Nat),
      l.foldl (drawGlyph env fh color size) { st with parsed := P, warns := W }
        = { l.foldl (drawGlyph env fh color size) st with
            parsed := P, warns := W } := by
  induction l with
  | nil => intro st P W; rfl
  | cons p rest ih =>
    intro st P W
    rw [List.foldl_cons, List.foldl_cons, drawGlyph_set_pw,
      ih (drawGlyph env fh color size st p) P W]

/-- C8: when a named external font's bytes fail to parse, resolution logs a
warning and substitutes the fallback font; drawing the `Text` primitive
completes and behaves exactly as with the default (fallback) font, except
that the warning count rises by one and the failed parse is recorded; and
`measure` returns exactly what it returns for the default font.  The
failure is never surfaced as an error. -/
theorem C8_parse_failure_recovers (env : Env) (vs : Nat × Nat) (s : ℚ)
    (content : String) (bounds : Rect) (color : Color) (size : ℚ)
    (st : DrawState) (name : String) (bytes : List Nat)
    (h : HorizontalAlignment) (v : VerticalAlignment)
    (contents : String) (msize : ℚ) (mbounds : ℚ × ℚ)
    (hmiss : lookupName st.fonts name = none)
    (hfail : env.parseFont bytes = none) :
    resolveFont env st.fonts (Font.external name bytes)
      = ⟨env.fallback_font, st.fonts, [(name, false)], 1⟩ ∧
    drawPrimitive env vs s
        (Primitive.text content bounds color size (Font.external name bytes) h v) st
      = { drawPrimitive env vs s
            (Primitive.text content bounds color size Font.default h v) st with
          parsed := st.parsed ++ [(name, false)], warns := st.warns + 1 } ∧
    Backend.measure env st.fonts contents msize (Font.external name bytes) mbounds
      = Backend.measure env st.fonts contents msize Font.default mbounds := by
  have e1 : resolveFont env st.fonts (Font.external name bytes)
      = ⟨env.fallback_font, st.fonts, [(name, false)], 1⟩ := by
    simp [resolveFont, hmiss, hfail]
  refine ⟨e1, ?_, ?_⟩
  · simp only [drawPrimitive, e1]
    simp only [List.append_nil, Nat.add_zero, resolveFont]
    exact foldl_drawGlyph_set_pw env env.fallback_font color size
      (env.layout env.fallback_font content size
        (textLayoutSettings bounds s h v))
      { st with ops := st.ops ++
          [(st.transform, RenderOp.layout_call size
            (textLayoutSettings bounds s h v))] }
      (st.parsed ++ [(name, false)]) (st.warns + 1)
  · simp [Backend.measure, measurePositions, resolveFont, hmiss, hfail]

/-- C8 witness: a concrete failing parse substitutes the fallback font,
logs one warning, and draw/measure behave as with the default font. -/
theorem C8_parse_failure_recovers_witness :
    resolveFont envA stW.fonts (Font.external "g" [0])
      = ⟨envA.fallback_font, stW.fonts, [("g", false)], 1⟩ ∧
    drawPrimitive envA (0, 0) 1
        (Primitive.text "A" ⟨0, 0, 10, 10⟩ colorW 16 (Font.external "g" [0])
          HorizontalAlignment.left VerticalAlignment.top) stW
      = { drawPrimitive envA (0, 0) 1
            (Primitive.text "A" ⟨0, 0, 10, 10⟩ colorW 16 Font.default
              HorizontalAlignment.left VerticalAlignment.top) stW with
          parsed := stW.parsed ++ [("g", false)], warns := stW.warns + 1 } ∧
    Backend.measure envA stW.fonts "A" 16 (Font.external "g" [0]) (10, 10)
      = Backend.measure envA stW.fonts "A" 16 Font.default (10, 10) :=
  C8_parse_failure_recovers envA (0, 0) 1 "A" ⟨0, 0, 10, 10⟩ colorW 16 stW
    "g" [0] HorizontalAlignment.left VerticalAlignment.top "A" 16 (10, 10)
    (by rfl) (by rfl)

/-- C10: a failed parse leaves the named-font table unchanged — the name is
not inserted — so a later reference to the same name parses again from
scratch; and any entry ever present in the table is either inherited or
came from a successful parse. -/
theorem C10_failed_parse_not_memoized (env : Env)
    (fonts : List (String × Nat)) (name : String) (bytes : List Nat)
    (hmiss : lookupName fonts name = none)
    (hfail : env.parseFont bytes = none) :
    (resolveFont env fonts (Font.external name bytes)).fonts = fonts ∧
    (resolveFont env (resolveFont env fonts (Font.external name bytes)).fonts
        (Font.external name bytes)).parsed = [(name, false)] ∧
    ∀ (fonts2 : List (String × Nat)) (font : Font) (e : String × Nat),
        e ∈ (resolveFont env fonts2 font).fonts →
        e ∈ fonts2 ∨ ∃ bytes2, font = Font.external e.1 bytes2 ∧
          env.parseFont bytes2 = some e.2 := by
  refine ⟨by simp [resolveFont, hmiss, hfail], ?_, ?_⟩
  · simp [resolveFont, hmiss, hfail]
  · intro fonts2 font e he
    cases font with
    | default => exact Or.inl he
    | external n2 b2 =>
      cases hlk : lookupName fonts2 n2 with
      | some f =>
        left
        simpa [resolveFont, hlk] using he
      | none =>
        cases hp : env.parseFont b2 with
        | some ok =>
          simp only [resolveFont, hlk, hp, List.mem_cons] at he
          rcases he with he | he
          · subst he
            exact Or.inr ⟨b2, rfl, hp⟩
          · exact Or.inl he
        | none =>
          left
          simpa [resolveFont, hlk, hp] using he

/-- C10 witness: a concrete failed parse leaves the table empty and the
same reference afterwards parses again (and fails again). -/
theorem C10_failed_parse_not_memoized_witness :
    (resolveFont envA [] (Font.external "g" [0])).fonts = [] ∧
    (resolveFont envA (resolveFont envA [] (Font.external "g" [0])).fonts
        (Font.external "g" [0])).parsed = [("g", false)] :=
  ⟨(C10_failed_parse_not_memoized envA [] "g" [0] (by rfl) (by rfl)).1,
   (C10_failed_parse_not_memoized envA [] "g" [0] (by rfl) (by rfl)).2.1⟩

lemma init_le_foldl_max (g : GlyphPosition → ℚ) (l : List GlyphPosition) :
    ∀ init : ℚ, init ≤ l.foldl (fun acc q => max acc (g q)) init := by
  induction l with
  | nil => intro init; exact le_refl _
  | cons p rest ih =>
    intro init
    exact le_trans (le_max_left _ _) (ih (max init (g p)))

lemma mem_le_foldl_max (g : GlyphPosition → ℚ) (l : List GlyphPosition) :
    ∀ (init : ℚ) (p : GlyphPosition), p ∈ l →
      g p ≤ l.foldl (fun acc q => max acc (g q)) init := by
  induction l with
  | nil =>
    intro init p hp
    cases hp
  | cons q rest ih =>
    intro init p hp
    rcases List.mem_cons.mp hp with he | hm
    · subst he
      exact le_trans (le_max_right init (g p)) (init_le_foldl_max g rest _)
    · exact ih (max init (g q)) p hm

/-- C9 counterexample: a layout placement of height `5` at `y = 0` yields
`measure = (1, 0)`, so `y + height ≤ h` fails — the height fold takes the
maximum of the placements' `y` values only, ignoring their heights. -/
theorem C9_counterexample :
    measurePositions envB [] "x" 16 Font.default (100, 100) = [posB] ∧
    Backend.measure envB [] "x" 16 Font.default (100, 100) = (1, 0) ∧
    ¬ (posB.y + (posB.height : ℚ)
        ≤ (Backend.measure envB [] "x" 16 Font.default (100, 100)).2) := by
  refine ⟨rfl, ?_, ?_⟩
  · simp [Backend.measure, measurePositions, envB, envA, resolveFont, posB]
  · simp [Backend.measure, measurePositions, envB, envA, resolveFont, posB]

/-- C9 (amended): `measure` returns a pair `(w, h)` where every placement
satisfies `x + width ≤ w` and `y ≤ h` (but not necessarily
`y + height ≤ h`: the height fold ignores placement heights), and `(0, 0)`
when there are no placements. -/
theorem C9_measure_bounds (env : Env) (fonts : List (String × Nat))
    (contents : String) (size : ℚ) (font : Font) (bounds : ℚ × ℚ) :
    (∀ p ∈ measurePositions env fonts contents size font bounds,
        p.x + (p.width : ℚ)
            ≤ (Backend.measure env fonts contents size font bounds).1 ∧
          p.y ≤ (Backend.measure env fonts contents size font bounds).2) ∧
      (measurePositions env fonts contents size font bounds = [] →
        Backend.measure env fonts contents size font bounds = (0, 0)) := by
  constructor
  · intro p hp
    constructor
    · exact mem_le_foldl_max (fun q => q.x + (q.width : ℚ))
        (measurePositions env fonts contents size font bounds) 0 p hp
    · exact mem_le_foldl_max (fun q => q.y)
        (measurePositions env fonts contents size font bounds) 0 p hp
  · intro h
    simp [Backend.measure, h]

/-- C9 witness: the concrete placement is bounded by the measured pair. -/
theorem C9_measure_bounds_witness :
    posB.x + (posB.width : ℚ)
        ≤ (Backend.measure envB [] "x" 16 Font.default (100, 100)).1 ∧
      posB.y ≤ (Backend.measure envB [] "x" 16 Font.default (100, 100)).2 :=
  (C9_measure_bounds envB [] "x" 16 Font.default (100, 100)).1 posB
    (by simp [measurePositions, envB, envA, resolveFont])
